import Mathlib

/-!
Shallow embedding of `src/fen_parser_gui.py` (the FEN validator/decoder core).

The Python core raises `LexicalError` (kind "LEXICAL", label LÉXICO),
`ParseError` (kind "PARSE", label SINTAXIS) or, through the builtin `int`,
an unclassified `ValueError`.  Errors are embedded as a structured inductive
type: each constructor corresponds to one `raise` site of the source and
carries the data that the source interpolates into the message
(offending character, row index, actual count), so statements about
"the message reports N" become statements about the carried payload.
Exception propagation is embedded as `Except`: every statement that can
raise is sequenced so that the first error is returned unchanged.
-/

set_option maxRecDepth 4000

/-- Kind of a raised Python exception: `lexical` for `LexicalError`,
`parse` for `ParseError` (the SYNTACTIC tag of the spec), `unclassified`
for a builtin exception that is neither (such as `ValueError`). -/
inductive ErrKind where
  | lexical
  | parse
  | unclassified
deriving DecidableEq, Repr

/-- One constructor per `raise` site of the source, with the interpolated
data as payload. `valueError` embeds an escape of the builtin `ValueError`
raised by `int(...)`; it is not a `FenError` subclass in the source. -/
inductive FenErr where
  /-- `_validate_fields_count`: expected 6 fields, got `n`. -/
  | fieldCount (n : Nat)
  /-- `_parse_piece_placement`: placement must have 8 ranks, has `n`. -/
  | rankCount (n : Nat)
  /-- `_parse_piece_placement`: in row `i`, digit 8 mixed with other content. -/
  | eightMixed (i : Nat)
  /-- `_parse_piece_placement`: character `c` not allowed in row `i`. -/
  | badPlacementChar (c : Char) (i : Nat)
  /-- `_parse_piece_placement`: row `i` sums to `n` columns, must be 8. -/
  | rowLen (i : Nat) (n : Nat)
  /-- `_parse_side_to_move`: field must be w or b. -/
  | badSide
  /-- `_parse_castling`: invalid castling character `c`. -/
  | badCastlingChar (c : Char)
  /-- `_parse_castling`: duplicated castling flag `c`. -/
  | dupCastling (c : Char)
  /-- `_parse_en_passant`: field must be `-` or exactly two characters. -/
  | epLen
  /-- `_parse_en_passant`: invalid en passant file `c`. -/
  | epFile (c : Char)
  /-- `_parse_en_passant`: invalid en passant rank `c`. -/
  | epRank (c : Char)
  /-- `_parse_halfmove_clock`: field is not made of decimal digit characters. -/
  | halfmoveNotDigit
  /-- `_parse_halfmove_clock`: negative value (guarded, unreachable). -/
  | halfmoveNegative
  /-- `_parse_fullmove_number`: field is not made of decimal digit characters. -/
  | fullmoveNotDigit
  /-- `_parse_fullmove_number`: value below 1. -/
  | fullmoveTooSmall
  /-- builtin `ValueError` escaping from `int(s)`: not a `FenError`. -/
  | valueError (s : String)
deriving DecidableEq, Repr

/-- The exception class each raise site uses in the source. -/
def errKind : FenErr → ErrKind
  | .fieldCount _ => .parse
  | .rankCount _ => .parse
  | .eightMixed _ => .parse
  | .badPlacementChar _ _ => .lexical
  | .rowLen _ _ => .parse
  | .badSide => .parse
  | .badCastlingChar _ => .lexical
  | .dupCastling _ => .parse
  | .epLen => .parse
  | .epFile _ => .lexical
  | .epRank _ => .parse
  | .halfmoveNotDigit => .lexical
  | .halfmoveNegative => .parse
  | .fullmoveNotDigit => .lexical
  | .fullmoveTooSmall => .parse
  | .valueError _ => .unclassified

/-- `ALL_PIECES`: keys of `UNICODE_WHITE` joined with keys of `UNICODE_BLACK`. -/
def ALL_PIECES : List Char := ['P', 'N', 'B', 'R', 'Q', 'K', 'p', 'n', 'b', 'r', 'q', 'k']

/-- `DIGITS_1_7 = set("1234567")`. -/
def DIGITS_1_7 : List Char := ['1', '2', '3', '4', '5', '6', '7']

/-- Model of Python `str.isdigit` for one character, restricted to the
character ranges relevant here: ASCII digits and Arabic-Indic digits
(decimal digits, category Nd) and the Latin-1 superscript digits
U+00B9 U+00B2 U+00B3 (which have Numeric_Type=Digit, hence `isdigit`
is true, but are NOT decimal digits, so the builtin `int` rejects them). -/
def pyIsDigit (c : Char) : Bool :=
  (48 ≤ c.toNat && c.toNat ≤ 57) ||
  (0x660 ≤ c.toNat && c.toNat ≤ 0x669) ||
  c = '¹' || c = '²' || c = '³'

/-- The decimal value of a character, for exactly the characters the
builtin `int` accepts as digits (Unicode category Nd, restricted to the
ranges modelled by `pyIsDigit`). -/
def decimalValue (c : Char) : Option Nat :=
  if 48 ≤ c.toNat && c.toNat ≤ 57 then some (c.toNat - 48)
  else if 0x660 ≤ c.toNat && c.toNat ≤ 0x669 then some (c.toNat - 0x660)
  else none

/-- Model of the builtin `int(s)` as used by the source: the source only
applies it to non-empty `isdigit` strings, so sign handling and inner
whitespace never arise there; `int` succeeds exactly when every character
is a decimal digit (category Nd) and then returns the base-10 value. -/
def pyInt (s : String) : Option Int :=
  if s.data ≠ [] ∧ s.data.all (fun c => (decimalValue c).isSome) then
    some (Int.ofNat (s.data.foldl (fun acc c => acc * 10 + ((decimalValue c).getD 0)) 0))
  else none

/-- Python `str.isdigit` on a whole string: non-empty and all digits. -/
def pyIsDigitStr (s : String) : Bool :=
  s.data ≠ [] && s.data.all pyIsDigit

/-- Whitespace for `str.split()` with no argument (ASCII part). -/
def isPySpace (c : Char) : Bool :=
  c = ' ' || c = '\t' || c = '\n' || c = '\x0d' || c = '\x0b' || c = '\x0c'

/-- Worker for `str.split()` with no argument: split on runs of
whitespace, discarding empty tokens; `cur` accumulates the current token
reversed. -/
def splitWsAux : List Char → List Char → List (List Char)
  | [], cur => if cur = [] then [] else [cur.reverse]
  | c :: rest, cur =>
    if isPySpace c then
      if cur = [] then splitWsAux rest []
      else cur.reverse :: splitWsAux rest []
    else splitWsAux rest (c :: cur)

/-- `fen.strip().split()` of the source: the `strip` is absorbed because
whitespace-splitting already discards leading and trailing whitespace. -/
def pySplit (s : String) : List String :=
  (splitWsAux s.data []).map (fun l => String.mk l)

/-- Python `str.split(sep)` for a one-character separator: keeps empty
segments, and the split of the empty string is one empty segment. -/
def splitListOn (sep : Char) : List Char → List (List Char)
  | [] => [[]]
  | c :: rest =>
    if c = sep then [] :: splitListOn sep rest
    else
      match splitListOn sep rest with
      | [] => [[c]]
      | g :: gs => (c :: g) :: gs

/-- `FenRecord` dataclass. The board is 8 rows of 8 cells, `none` for an
empty cell, otherwise one of the letters of `ALL_PIECES`. -/
structure FenRecord where
  board : List (List (Option Char))
  side_to_move : String
  castling : String
  en_passant : String
  halfmove_clock : Int
  fullmove_number : Int
deriving DecidableEq, Repr

/-- The character-by-character scan of one rank (the `while j < len(rank)`
loop of `_parse_piece_placement`), for rank number `i` (1-indexed), with
`row` the accumulated cells. -/
def parseRankAux (i : Nat) : List Char → List (Option Char) →
    Except FenErr (List (Option Char))
  | [], row => .ok row
  | ch :: rest, row =>
    if ch ∈ ALL_PIECES then
      parseRankAux i rest (row ++ [some ch])
    else if ch ∈ DIGITS_1_7 then
      parseRankAux i rest (row ++ List.replicate (ch.toNat - 48) none)
    else if ch = '8' then
      .error (.eightMixed i)
    else
      .error (.badPlacementChar ch i)

/-- One iteration of the rank loop in `_parse_piece_placement`: the
whole-rank literal "8" shortcut, then the scan, then the row-length
check. -/
def parseRank (i : Nat) (rank : String) : Except FenErr (List (Option Char)) :=
  if rank = "8" then .ok (List.replicate 8 none)
  else
    match parseRankAux i rank.data [] with
    | .error e => .error e
    | .ok row =>
      if row.length = 8 then .ok row
      else .error (.rowLen i row.length)

/-- The `for i, rank in enumerate(ranks, start=1)` loop of
`_parse_piece_placement`, building the board row by row and propagating
the first raised error. -/
def parsePlacementRanks : Nat → List String → Except FenErr (List (List (Option Char)))
  | _, [] => .ok []
  | i, r :: rs =>
    match parseRank i r with
    | .error e => .error e
    | .ok row =>
      match parsePlacementRanks (i + 1) rs with
      | .error e => .error e
      | .ok rest => .ok (row :: rest)

/-- `_parse_piece_placement`: split on `/`, require 8 ranks, decode each. -/
def parse_piece_placement (placement : String) : Except FenErr (List (List (Option Char))) :=
  let ranks := (splitListOn '/' placement.data).map (fun l => String.mk l)
  if ranks.length ≠ 8 then .error (.rankCount ranks.length)
  else parsePlacementRanks 1 ranks

/-- `_parse_side_to_move`. -/
def parse_side_to_move (side : String) : Except FenErr String :=
  if side = "w" ∨ side = "b" then .ok side
  else .error .badSide

/-- The `for ch in castling` loop of `_parse_castling`, with `seen` the
set of flags already seen. -/
def castlingAux (seen : List Char) : List Char → Except FenErr Unit
  | [] => .ok ()
  | ch :: rest =>
    if ch ∉ ['K', 'Q', 'k', 'q'] then .error (.badCastlingChar ch)
    else if ch ∈ seen then .error (.dupCastling ch)
    else castlingAux (ch :: seen) rest

/-- `_parse_castling`: `-` is returned as is; otherwise every character
must be one of K Q k q with no repetition, and the INPUT STRING itself is
returned (any order is accepted, nothing is normalized). -/
def parse_castling (castling : String) : Except FenErr String :=
  if castling = "-" then .ok castling
  else
    match castlingAux [] castling.data with
    | .error e => .error e
    | .ok _ => .ok castling

/-- `_parse_en_passant`: `-`, or exactly two characters, file in a..h
(else lexical), rank in 3 or 6 (else parse error), checked in that order. -/
def parse_en_passant (ep : String) : Except FenErr String :=
  if ep = "-" then .ok ep
  else
    match ep.data with
    | [f, r] =>
      if f ∉ ['a', 'b', 'c', 'd', 'e', 'f', 'g', 'h'] then .error (.epFile f)
      else if r ∉ ['3', '6'] then .error (.epRank r)
      else .ok ep
    | _ => .error .epLen

/-- `_parse_halfmove_clock`: `isdigit` check (else `LexicalError`), then
`int(hm)` (which may raise `ValueError`), then the guarded `< 0` check. -/
def parse_halfmove_clock (hm : String) : Except FenErr Int :=
  if !pyIsDigitStr hm then .error .halfmoveNotDigit
  else
    match pyInt hm with
    | none => .error (.valueError hm)
    | some val =>
      if val < 0 then .error .halfmoveNegative
      else .ok val

/-- `_parse_fullmove_number`: `isdigit` check, `int(fn)`, then `< 1` check. -/
def parse_fullmove_number (fn : String) : Except FenErr Int :=
  if !pyIsDigitStr fn then .error .fullmoveNotDigit
  else
    match pyInt fn with
    | none => .error (.valueError fn)
    | some val =>
      if val < 1 then .error .fullmoveTooSmall
      else .ok val

/-- Body of `parse_fen` after the split: `_validate_fields_count`, the
six-way unpacking, and the validators in their fixed order, propagating
the first raised error. -/
def parseFields (parts : List String) : Except FenErr FenRecord :=
  match parts with
  | [placement, side, castling, ep, halfmove, fullmove] =>
    match parse_piece_placement placement with
    | .error e => .error e
    | .ok board =>
      match parse_side_to_move side with
      | .error e => .error e
      | .ok s =>
        match parse_castling castling with
        | .error e => .error e
        | .ok c =>
          match parse_en_passant ep with
          | .error e => .error e
          | .ok eps =>
            match parse_halfmove_clock halfmove with
            | .error e => .error e
            | .ok hm =>
              match parse_fullmove_number fullmove with
              | .error e => .error e
              | .ok fn =>
                .ok { board := board, side_to_move := s, castling := c,
                      en_passant := eps, halfmove_clock := hm,
                      fullmove_number := fn }
  | other => .error (.fieldCount other.length)

/-- `parse_fen`: `fen.strip().split()` then the field validators. -/
def parse_fen (fen : String) : Except FenErr FenRecord :=
  parseFields (pySplit fen)

/-- A decoded board cell: empty, or one of the 12 piece letters. -/
def cellOk (x : Option Char) : Prop :=
  x = none ∨ ∃ c, x = some c ∧ c ∈ ALL_PIECES

/-- The standard initial position, the end-to-end success case of the
spec and of the example picker of the source. -/
def exampleFEN : String := "rnbqkbnr/pppppppp/8/8/8/8/PPPPPPPP/RNBQKBNR w KQkq - 0 1"

/-- The record `parse_fen` produces for `exampleFEN`. -/
def exampleRecord : FenRecord :=
  { board := [[some 'r', some 'n', some 'b', some 'q', some 'k', some 'b', some 'n', some 'r'],
              [some 'p', some 'p', some 'p', some 'p', some 'p', some 'p', some 'p', some 'p'],
              List.replicate 8 none, List.replicate 8 none,
              List.replicate 8 none, List.replicate 8 none,
              [some 'P', some 'P', some 'P', some 'P', some 'P', some 'P', some 'P', some 'P'],
              [some 'R', some 'N', some 'B', some 'Q', some 'K', some 'B', some 'N', some 'R']],
    side_to_move := "w", castling := "KQkq", en_passant := "-",
    halfmove_clock := 0, fullmove_number := 1 }

/-- If the rank scan reaches a character outside the legal alphabet after
a run of legal characters, it raises exactly at that character:
`eightMixed` for the digit 8, otherwise the lexical `badPlacementChar`. -/
theorem parseRankAux_first_illegal (i : Nat) (c : Char) (post : List Char) :
    ∀ (pre : List Char) (acc : List (Option Char)),
      (∀ x ∈ pre, x ∈ ALL_PIECES ∨ x ∈ DIGITS_1_7) →
      c ∉ ALL_PIECES → c ∉ DIGITS_1_7 →
      parseRankAux i (pre ++ c :: post) acc =
        .error (if c = '8' then .eightMixed i else .badPlacementChar c i) := by
  intro pre
  induction pre with
  | nil =>
    intro acc _ hp hd
    simp only [List.nil_append, parseRankAux]
    rw [if_neg hp, if_neg hd]
    by_cases h8 : c = '8'
    · rw [if_pos h8, if_pos h8]
    · rw [if_neg h8, if_neg h8]
  | cons x xs ih =>
    intro acc hpre hp hd
    have hx := hpre x (List.mem_cons_self x xs)
    have hxs : ∀ y ∈ xs, y ∈ ALL_PIECES ∨ y ∈ DIGITS_1_7 := fun y hy =>
      hpre y (List.mem_cons_of_mem x hy)
    simp only [List.cons_append, parseRankAux]
    rcases hx with hpc | hdc
    · rw [if_pos hpc]
      exact ih _ hxs hp hd
    · by_cases hpc : x ∈ ALL_PIECES
      · rw [if_pos hpc]; exact ih _ hxs hp hd
      · rw [if_neg hpc, if_pos hdc]; exact ih _ hxs hp hd

/-- A rank whose text contains the digit 8 can never be scanned to the
end: the scan raises at the latest when it reaches that digit. -/
theorem parseRankAux_error_of_eight_mem (i : Nat) :
    ∀ (l : List Char) (acc : List (Option Char)), '8' ∈ l →
      ∃ e, parseRankAux i l acc = .error e := by
  intro l
  induction l with
  | nil => intro acc h; cases h
  | cons c rest ih =>
    intro acc hmem
    simp only [parseRankAux]
    by_cases hpc : c ∈ ALL_PIECES
    · rw [if_pos hpc]
      apply ih
      rcases List.mem_cons.mp hmem with h | h
      · subst h; exact absurd hpc (by decide)
      · exact h
    · rw [if_neg hpc]
      by_cases hdc : c ∈ DIGITS_1_7
      · rw [if_pos hdc]
        apply ih
        rcases List.mem_cons.mp hmem with h | h
        · subst h; exact absurd hdc (by decide)
        · exact h
      · rw [if_neg hdc]
        by_cases h8 : c = '8'
        · rw [if_pos h8]; exact ⟨_, rfl⟩
        · rw [if_neg h8]; exact ⟨_, rfl⟩

/-- An empty rank segment always fails with the row-length error naming
zero columns (the scan loop body never runs). -/
theorem parseRank_empty (i : Nat) : parseRank i "" = .error (.rowLen i 0) := rfl

/-- A successfully decoded rank has exactly 8 cells. -/
theorem parseRank_ok_length {i : Nat} {r : String} {row : List (Option Char)}
    (h : parseRank i r = .ok row) : row.length = 8 := by
  unfold parseRank at h
  split at h
  · simp only [Except.ok.injEq] at h
    subst h
    simp
  · split at h
    · simp at h
    · split at h
      · simp only [Except.ok.injEq] at h
        subst h
        assumption
      · simp at h

/-- Every cell the scan accumulates is empty or holds a piece letter. -/
theorem parseRankAux_ok_cells (i : Nat) :
    ∀ (l : List Char) (acc out : List (Option Char)),
      parseRankAux i l acc = .ok out → (∀ x ∈ acc, cellOk x) →
      ∀ x ∈ out, cellOk x := by
  intro l
  induction l with
  | nil =>
    intro acc out h hacc
    simp only [parseRankAux, Except.ok.injEq] at h
    subst h
    exact hacc
  | cons c rest ih =>
    intro acc out h hacc
    simp only [parseRankAux] at h
    by_cases hpc : c ∈ ALL_PIECES
    · rw [if_pos hpc] at h
      refine ih _ _ h ?_
      intro x hx
      rcases List.mem_append.mp hx with hx | hx
      · exact hacc x hx
      · simp only [List.mem_singleton] at hx
        exact Or.inr ⟨c, hx, hpc⟩
    · rw [if_neg hpc] at h
      by_cases hdc : c ∈ DIGITS_1_7
      · rw [if_pos hdc] at h
        refine ih _ _ h ?_
        intro x hx
        rcases List.mem_append.mp hx with hx | hx
        · exact hacc x hx
        · exact Or.inl (List.eq_of_mem_replicate hx)
      · rw [if_neg hdc] at h
        split at h <;> simp at h

/-- Every cell of a successfully decoded rank is empty or a piece letter. -/
theorem parseRank_ok_cells {i : Nat} {r : String} {row : List (Option Char)}
    (h : parseRank i r = .ok row) : ∀ x ∈ row, cellOk x := by
  unfold parseRank at h
  split at h
  · simp only [Except.ok.injEq] at h
    subst h
    intro x hx
    exact Or.inl (List.eq_of_mem_replicate hx)
  · split at h
    · simp at h
    · rename_i row' heq
      split at h
      · simp only [Except.ok.injEq] at h
        subst h
        exact parseRankAux_ok_cells i r.data [] row' heq (by simp)
      · simp at h

/-- The rank loop yields one row per rank segment. -/
theorem parsePlacementRanks_ok_length :
    ∀ (rs : List String) (i : Nat) (out : List (List (Option Char))),
      parsePlacementRanks i rs = .ok out → out.length = rs.length := by
  intro rs
  induction rs with
  | nil =>
    intro i out h
    simp only [parsePlacementRanks, Except.ok.injEq] at h
    subst h
    rfl
  | cons r rest ih =>
    intro i out h
    simp only [parsePlacementRanks] at h
    cases hr : parseRank i r with
    | error e => rw [hr] at h; simp at h
    | ok row =>
      rw [hr] at h
      cases htl : parsePlacementRanks (i + 1) rest with
      | error e => rw [htl] at h; simp at h
      | ok tl =>
        rw [htl] at h
        simp only [Except.ok.injEq] at h
        subst h
        simp [ih (i + 1) tl htl]

/-- Every row produced by the rank loop comes from a successful
`parseRank` on some rank segment. -/
theorem parsePlacementRanks_ok_rows :
    ∀ (rs : List String) (i : Nat) (out : List (List (Option Char))),
      parsePlacementRanks i rs = .ok out →
      ∀ row ∈ out, ∃ j r, parseRank j r = .ok row := by
  intro rs
  induction rs with
  | nil =>
    intro i out h
    simp only [parsePlacementRanks, Except.ok.injEq] at h
    subst h
    intro row hrow
    cases hrow
  | cons r rest ih =>
    intro i out h
    simp only [parsePlacementRanks] at h
    cases hr : parseRank i r with
    | error e => rw [hr] at h; simp at h
    | ok row =>
      rw [hr] at h
      cases htl : parsePlacementRanks (i + 1) rest with
      | error e => rw [htl] at h; simp at h
      | ok tl =>
        rw [htl] at h
        simp only [Except.ok.injEq] at h
        subst h
        intro x hx
        rcases List.mem_cons.mp hx with hx | hx
        · subst hx
          exact ⟨i, r, hr⟩
        · exact ih (i + 1) tl htl x hx

/-- Fail-fast inside the placement field: when every rank segment before
position `pre.length` decodes successfully and the next one raises, the
rank loop propagates exactly that error, regardless of the segments
after it. -/
theorem parsePlacementRanks_error_after_ok :
    ∀ (pre : List String) (i : Nat) (r : String) (rest : List String) (e : FenErr),
      (∀ j, j < pre.length → ∃ row, parseRank (i + j) (pre.getD j "") = .ok row) →
      parseRank (i + pre.length) r = .error e →
      parsePlacementRanks i (pre ++ r :: rest) = .error e := by
  intro pre
  induction pre with
  | nil =>
    intro i r rest e _ herr
    simp only [List.nil_append, parsePlacementRanks]
    rw [show i + [].length = i from rfl] at herr
    rw [herr]
  | cons p ps ih =>
    intro i r rest e hok herr
    obtain ⟨row, hrow⟩ := hok 0 (by simp)
    rw [show i + 0 = i from rfl] at hrow
    simp only [List.getD_cons_zero] at hrow
    have hok' : ∀ j, j < ps.length → ∃ row, parseRank (i + 1 + j) (ps.getD j "") = .ok row := by
      intro j hj
      have := hok (j + 1) (by simpa using Nat.succ_lt_succ hj)
      rw [show i + (j + 1) = i + 1 + j by omega] at this
      simpa using this
    have herr' : parseRank (i + 1 + ps.length) r = .error e := by
      rw [show i + 1 + ps.length = i + (p :: ps).length by simp; omega]
      exact herr
    simp only [List.cons_append, parsePlacementRanks, List.append_eq]
    rw [hrow, ih (i + 1) r rest e hok' herr']

/-- At field level the validators run in fixed order: an error raised in
the placement field is returned unchanged, whatever the later fields
hold. -/
theorem parseFields_placement_error (p s c e hm fm : String) (err : FenErr)
    (h : parse_piece_placement p = .error err) :
    parseFields [p, s, c, e, hm, fm] = .error err := by
  simp only [parseFields]
  rw [h]

/-- With a token count other than 6 the assembler stops at
`_validate_fields_count`, reporting the actual count. -/
theorem parseFields_not6 (parts : List String) (h : parts.length ≠ 6) :
    parseFields parts = .error (.fieldCount parts.length) := by
  rcases parts with _ | ⟨a, _ | ⟨b, _ | ⟨c, _ | ⟨d, _ | ⟨e, _ | ⟨f, _ | ⟨g, t⟩⟩⟩⟩⟩⟩⟩
  · rfl
  · rfl
  · rfl
  · rfl
  · rfl
  · rfl
  · exact absurd rfl h
  · rfl

/-- A successful record is assembled from a successful placement decode:
its board is exactly the decoded grid. -/
theorem parseFields_ok_board (parts : List String) (rec : FenRecord)
    (h : parseFields parts = .ok rec) :
    ∃ p b, parse_piece_placement p = .ok b ∧ rec.board = b := by
  rcases parts with _ | ⟨p, _ | ⟨s, _ | ⟨c, _ | ⟨e, _ | ⟨hm, _ | ⟨fm, _ | ⟨g, t⟩⟩⟩⟩⟩⟩⟩
  · simp [parseFields] at h
  · exact absurd h (by rw [parseFields_not6 _ (by simp)]; simp)
  · exact absurd h (by rw [parseFields_not6 _ (by simp)]; simp)
  · exact absurd h (by rw [parseFields_not6 _ (by simp)]; simp)
  · exact absurd h (by rw [parseFields_not6 _ (by simp)]; simp)
  · exact absurd h (by rw [parseFields_not6 _ (by simp)]; simp)
  · simp only [parseFields] at h
    cases hpp : parse_piece_placement p with
    | error err => rw [hpp] at h; simp at h
    | ok board =>
      rw [hpp] at h
      cases hsd : parse_side_to_move s with
      | error err => rw [hsd] at h; simp at h
      | ok sv =>
        rw [hsd] at h
        cases hcs : parse_castling c with
        | error err => rw [hcs] at h; simp at h
        | ok cv =>
          rw [hcs] at h
          cases hep : parse_en_passant e with
          | error err => rw [hep] at h; simp at h
          | ok ev =>
            rw [hep] at h
            cases hhm : parse_halfmove_clock hm with
            | error err => rw [hhm] at h; simp at h
            | ok hv =>
              rw [hhm] at h
              cases hfm : parse_fullmove_number fm with
              | error err => rw [hfm] at h; simp at h
              | ok fv =>
                rw [hfm] at h
                simp only [Except.ok.injEq] at h
                subst h
                exact ⟨p, board, hpp, rfl⟩
  · exact absurd h (by rw [parseFields_not6 _ (by simp)]; simp)

/-- A successfully decoded placement is an 8-row grid of 8-cell rows of
legal cells. -/
theorem parse_piece_placement_ok_shape {p : String} {b : List (List (Option Char))}
    (h : parse_piece_placement p = .ok b) :
    b.length = 8 ∧ ∀ row ∈ b, row.length = 8 ∧ ∀ x ∈ row, cellOk x := by
  simp only [parse_piece_placement] at h
  split at h
  · simp at h
  · rename_i hlen
    have h8 : ((splitListOn '/' p.data).map (fun l => String.mk l)).length = 8 :=
      not_ne_iff.mp hlen
    refine ⟨(parsePlacementRanks_ok_length _ 1 b h).trans h8, ?_⟩
    intro row hrow
    obtain ⟨j, r, hjr⟩ := parsePlacementRanks_ok_rows _ 1 b h row hrow
    exact ⟨parseRank_ok_length hjr, parseRank_ok_cells hjr⟩

/-- The model of the builtin `int` only produces non-negative values on
digit-only strings. -/
theorem pyInt_nonneg {s : String} {v : Int} (h : pyInt s = some v) : 0 ≤ v := by
  unfold pyInt at h
  split at h
  · simp only [Option.some.injEq] at h
    subst h
    exact Int.ofNat_nonneg _
  · simp at h

/-- The negative-value branch of `_parse_halfmove_clock` can never be
taken: whatever the input, the validator never raises that error. -/
theorem parse_halfmove_clock_never_negative (s : String) :
    parse_halfmove_clock s ≠ .error .halfmoveNegative := by
  unfold parse_halfmove_clock
  cases hd : pyIsDigitStr s
  · simp
  · rw [if_neg (by simp)]
    cases hv : pyInt s
    · simp
    · rename_i val
      show (if val < 0 then Except.error FenErr.halfmoveNegative else Except.ok val) ≠ _
      rw [if_neg (not_lt.mpr (pyInt_nonneg hv))]
      simp

/-- The castling scan succeeds exactly on lists of valid flags with no
repetition and no overlap with the flags already seen. -/
theorem castlingAux_ok_iff :
    ∀ (l seen : List Char),
      castlingAux seen l = .ok () ↔
        (∀ c ∈ l, c ∈ ['K', 'Q', 'k', 'q']) ∧ l.Nodup ∧ ∀ c ∈ l, c ∉ seen := by
  intro l
  induction l with
  | nil => intro seen; simp [castlingAux]
  | cons c rest ih =>
    intro seen
    simp only [castlingAux]
    by_cases hv : c ∈ ['K', 'Q', 'k', 'q']
    · rw [if_neg (not_not_intro hv)]
      by_cases hs : c ∈ seen
      · rw [if_pos hs]
        constructor
        · intro h; exact absurd h (by simp)
        · rintro ⟨-, -, h3⟩
          exact absurd hs (h3 c (List.mem_cons_self c rest))
      · rw [if_neg hs]
        rw [ih (c :: seen)]
        constructor
        · rintro ⟨h1, h2, h3⟩
          refine ⟨?_, ?_, ?_⟩
          · intro x hx
            rcases List.mem_cons.mp hx with rfl | hx
            · exact hv
            · exact h1 x hx
          · rw [List.nodup_cons]
            exact ⟨fun hc => (h3 c hc) (List.mem_cons_self c seen), h2⟩
          · intro x hx
            rcases List.mem_cons.mp hx with rfl | hx
            · exact hs
            · exact fun hxs => (h3 x hx) (List.mem_cons_of_mem c hxs)
        · rintro ⟨h1, h2, h3⟩
          have h2' := List.nodup_cons.mp h2
          refine ⟨?_, h2'.2, ?_⟩
          · intro x hx
            exact h1 x (List.mem_cons_of_mem c hx)
          · intro x hx
            simp only [List.mem_cons, not_or]
            exact ⟨fun hxc => h2'.1 (hxc ▸ hx), h3 x (List.mem_cons_of_mem c hx)⟩
    · rw [if_pos hv]
      constructor
      · intro h; exact absurd h (by simp)
      · rintro ⟨h1, -, -⟩
        exact absurd (h1 c (List.mem_cons_self c rest)) hv

/-- Claim C1 (counterexample): the rank segment "x8" is not the literal
"8" and contains the digit 8, yet its decoding fails with the LEXICAL
bad-character error about x, not with a SYNTACTIC error — both at rank
level and inside a full placement field. -/
theorem claim_C1_counterexample :
    ("x8" : String) ≠ "8" ∧ '8' ∈ ("x8" : String).data ∧
    parseRank 1 "x8" = .error (.badPlacementChar 'x' 1) ∧
    parse_piece_placement "x8/8/8/8/8/8/8/8" = .error (.badPlacementChar 'x' 1) ∧
    errKind (.badPlacementChar 'x' 1) = .lexical ∧
    errKind (.badPlacementChar 'x' 1) ≠ .parse :=
  ⟨by decide, by decide, rfl, rfl, rfl, by decide⟩

/-- Claim C1 (amended): a rank equal to the literal "8" decodes to 8
empty cells; a rank that is not "8" but contains the digit 8 never
decodes, and when every character before that digit is a piece letter or
a digit 1-7 the failure is the SYNTACTIC mixed-8 error; the rank "44"
decodes to 8 empty cells, and "3p8" fails with the SYNTACTIC mixed-8
error. -/
theorem claim_C1_eight_rank :
    (∀ i, parseRank i "8" = .ok (List.replicate 8 none)) ∧
    (∀ i (r : String), r ≠ "8" → '8' ∈ r.data → ∃ e, parseRank i r = .error e) ∧
    (∀ i (pre post : List Char),
      (∀ x ∈ pre, x ∈ ALL_PIECES ∨ x ∈ DIGITS_1_7) →
      String.mk (pre ++ '8' :: post) ≠ "8" →
      parseRank i (String.mk (pre ++ '8' :: post)) = .error (.eightMixed i)) ∧
    (∀ i, parseRank i "44" = .ok (List.replicate 8 none)) ∧
    (∀ i, parseRank i "3p8" = .error (.eightMixed i)) ∧
    (∀ i, errKind (.eightMixed i) = .parse) := by
  refine ⟨fun i => rfl, ?_, ?_, fun i => rfl, fun i => rfl, fun i => rfl⟩
  · intro i r hne hmem
    unfold parseRank
    rw [if_neg hne]
    obtain ⟨e, he⟩ := parseRankAux_error_of_eight_mem i r.data [] hmem
    rw [he]
    exact ⟨e, rfl⟩
  · intro i pre post hpre hne
    unfold parseRank
    rw [if_neg hne]
    have hdata : (String.mk (pre ++ '8' :: post)).data = pre ++ '8' :: post := rfl
    rw [hdata]
    have hfirst := parseRankAux_first_illegal i '8' post pre [] hpre (by decide) (by decide)
    rw [if_pos rfl] at hfirst
    rw [hfirst]

/-- Claim C1 (witness): the amended theorem applied at the concrete
failing ranks "x8" and "1p8". -/
theorem claim_C1_witness :
    (∃ e, parseRank 1 "x8" = .error e) ∧
    parseRank 2 (String.mk (['1', 'p'] ++ '8' :: [])) = .error (.eightMixed 2) :=
  ⟨claim_C1_eight_rank.2.1 1 "x8" (by decide) (by decide),
   claim_C1_eight_rank.2.2.1 2 ['1', 'p'] [] (by decide) (by decide)⟩

/-- Claim C2 (code bug): on a FEN whose halfmove field is the superscript
two character, the validator neither returns a record nor raises a
LEXICAL or SYNTACTIC `FenError`: the `isdigit` guard passes but the
builtin `int` raises an unclassified `ValueError` that escapes
`parse_fen`. -/
theorem claim_C2_unclassified_escape :
    parse_fen "8/8/8/8/8/8/8/8 w - - ² 1" = .error (.valueError "²") ∧
    errKind (.valueError "²") ≠ .lexical ∧
    errKind (.valueError "²") ≠ .parse :=
  ⟨rfl, by decide, by decide⟩

/-- Claim C3: every successfully validated record has a board of exactly
8 rows, each of exactly 8 cells, every cell empty or one of the 12 piece
letters. -/
theorem claim_C3_grid_shape (fen : String) (rec : FenRecord)
    (h : parse_fen fen = .ok rec) :
    rec.board.length = 8 ∧ ∀ row ∈ rec.board, row.length = 8 ∧ ∀ x ∈ row, cellOk x := by
  obtain ⟨p, b, hpp, hb⟩ := parseFields_ok_board (pySplit fen) rec h
  rw [hb]
  exact parse_piece_placement_ok_shape hpp

/-- Claim C3 (witness): the shape theorem applied to the decoded
standard initial position. -/
theorem claim_C3_witness :
    exampleRecord.board.length = 8 ∧
    ∀ row ∈ exampleRecord.board, row.length = 8 ∧ ∀ x ∈ row, cellOk x :=
  claim_C3_grid_shape exampleFEN exampleRecord rfl

/-- Claim C4: validation is fail-fast with single-error semantics in the
fixed order splitter, placement, side-to-move, castling, en-passant,
halfmove, fullmove: a wrong token count stops everything; each
validator's error is the result whenever all earlier validators
succeeded, whatever the later fields hold; when all succeed the record
is returned; inside the placement field, ranks are decoded in order
(an error of rank k is the result when ranks before k decode) and within
a rank the scan reports the first offending character; and on the
invalid example of the enunciado the reported error is the SYNTACTIC
row-length error of rank 1 (which sums to 14), not the invalid
character C of rank 5. -/
theorem claim_C4_fail_fast :
    (∀ fen : String, (pySplit fen).length ≠ 6 →
      parse_fen fen = .error (.fieldCount (pySplit fen).length)) ∧
    (∀ (p s c e hm fm : String) (err : FenErr),
      parse_piece_placement p = .error err →
      parseFields [p, s, c, e, hm, fm] = .error err) ∧
    (∀ (p s c e hm fm : String) (board : List (List (Option Char))) (err : FenErr),
      parse_piece_placement p = .ok board →
      parse_side_to_move s = .error err →
      parseFields [p, s, c, e, hm, fm] = .error err) ∧
    (∀ (p s c e hm fm : String) board (sv : String) (err : FenErr),
      parse_piece_placement p = .ok board →
      parse_side_to_move s = .ok sv →
      parse_castling c = .error err →
      parseFields [p, s, c, e, hm, fm] = .error err) ∧
    (∀ (p s c e hm fm : String) board (sv cv : String) (err : FenErr),
      parse_piece_placement p = .ok board →
      parse_side_to_move s = .ok sv →
      parse_castling c = .ok cv →
      parse_en_passant e = .error err →
      parseFields [p, s, c, e, hm, fm] = .error err) ∧
    (∀ (p s c e hm fm : String) board (sv cv ev : String) (err : FenErr),
      parse_piece_placement p = .ok board →
      parse_side_to_move s = .ok sv →
      parse_castling c = .ok cv →
      parse_en_passant e = .ok ev →
      parse_halfmove_clock hm = .error err →
      parseFields [p, s, c, e, hm, fm] = .error err) ∧
    (∀ (p s c e hm fm : String) board (sv cv ev : String) (hv : Int) (err : FenErr),
      parse_piece_placement p = .ok board →
      parse_side_to_move s = .ok sv →
      parse_castling c = .ok cv →
      parse_en_passant e = .ok ev →
      parse_halfmove_clock hm = .ok hv →
      parse_fullmove_number fm = .error err →
      parseFields [p, s, c, e, hm, fm] = .error err) ∧
    (∀ (p s c e hm fm : String) board (sv cv ev : String) (hv fv : Int),
      parse_piece_placement p = .ok board →
      parse_side_to_move s = .ok sv →
      parse_castling c = .ok cv →
      parse_en_passant e = .ok ev →
      parse_halfmove_clock hm = .ok hv →
      parse_fullmove_number fm = .ok fv →
      parseFields [p, s, c, e, hm, fm] =
        .ok { board := board, side_to_move := sv, castling := cv,
              en_passant := ev, halfmove_clock := hv, fullmove_number := fv }) ∧
    (∀ (s : String) (pre : List String) (r : String) (rest : List String) (e : FenErr),
      (splitListOn '/' s.data).map (fun l => String.mk l) = pre ++ r :: rest →
      pre.length + (rest.length + 1) = 8 →
      (∀ j, j < pre.length → ∃ row, parseRank (1 + j) (pre.getD j "") = .ok row) →
      parseRank (1 + pre.length) r = .error e →
      parse_piece_placement s = .error e) ∧
    (∀ (i : Nat) (pre post : List Char) (c : Char),
      (∀ x ∈ pre, x ∈ ALL_PIECES ∨ x ∈ DIGITS_1_7) →
      c ∉ ALL_PIECES → c ∉ DIGITS_1_7 →
      String.mk (pre ++ c :: post) ≠ "8" →
      parseRank i (String.mk (pre ++ c :: post)) =
        .error (if c = '8' then .eightMixed i else .badPlacementChar c i)) ∧
    parse_fen "2r3k7/p3bqp1/Q2p3p/3Pp3/P3C3/8/5PPP/5RK1 b - - 1 27" =
      .error (.rowLen 1 14) ∧
    errKind (.rowLen 1 14) = .parse := by
  refine ⟨?_, parseFields_placement_error, ?_, ?_, ?_, ?_, ?_, ?_, ?_, ?_, rfl, rfl⟩
  · intro fen h
    exact parseFields_not6 (pySplit fen) h
  · intro p s c e hm fm board err hpp hsd
    simp only [parseFields]
    rw [hpp, hsd]
  · intro p s c e hm fm board sv err hpp hsd hcs
    simp only [parseFields]
    rw [hpp, hsd, hcs]
  · intro p s c e hm fm board sv cv err hpp hsd hcs hep
    simp only [parseFields]
    rw [hpp, hsd, hcs, hep]
  · intro p s c e hm fm board sv cv ev err hpp hsd hcs hep hhm
    simp only [parseFields]
    rw [hpp, hsd, hcs, hep, hhm]
  · intro p s c e hm fm board sv cv ev hv err hpp hsd hcs hep hhm hfm
    simp only [parseFields]
    rw [hpp, hsd, hcs, hep, hhm, hfm]
  · intro p s c e hm fm board sv cv ev hv fv hpp hsd hcs hep hhm hfm
    simp only [parseFields]
    rw [hpp, hsd, hcs, hep, hhm, hfm]
  · intro s pre r rest e hsplit hlen hok herr
    simp only [parse_piece_placement]
    rw [hsplit]
    have h8 : (pre ++ r :: rest).length = 8 := by
      simp only [List.length_append, List.length_cons]
      omega
    rw [if_neg (not_ne_iff.mpr h8)]
    exact parsePlacementRanks_error_after_ok pre 1 r rest e hok herr
  · intro i pre post c hpre hp hd hne
    unfold parseRank
    rw [if_neg hne]
    have hdata : (String.mk (pre ++ c :: post)).data = pre ++ c :: post := rfl
    rw [hdata]
    rw [parseRankAux_first_illegal i c post pre [] hpre hp hd]

/-- Claim C4 (witness): the fail-fast parts applied to concrete inputs:
an invalid placement masks an invalid side field; an invalid side field
masks invalid castling, en-passant, halfmove and fullmove fields; an
invalid halfmove field masks an invalid fullmove field; rank 2's bad
character is reported once rank 1 decodes; and all-valid fields
assemble a record. -/
theorem claim_C4_witness :
    parseFields ["8", "zz", "-", "-", "0", "1"] = .error (.rankCount 1) ∧
    parseFields ["8/8/8/8/8/8/8/8", "W", "KK", "e9", "-1", "0"] = .error .badSide ∧
    parseFields ["8/8/8/8/8/8/8/8", "w", "-", "-", "x", "0"] =
      .error .halfmoveNotDigit ∧
    parse_piece_placement "8/x7/8/8/8/8/8/8" = .error (.badPlacementChar 'x' 2) ∧
    parseFields ["8/8/8/8/8/8/8/8", "b", "-", "-", "0", "1"] =
      .ok { board := List.replicate 8 (List.replicate 8 none), side_to_move := "b",
            castling := "-", en_passant := "-", halfmove_clock := 0,
            fullmove_number := 1 } :=
  ⟨claim_C4_fail_fast.2.1 "8" "zz" "-" "-" "0" "1" (.rankCount 1) rfl,
   claim_C4_fail_fast.2.2.1 "8/8/8/8/8/8/8/8" "W" "KK" "e9" "-1" "0"
     (List.replicate 8 (List.replicate 8 none)) .badSide rfl rfl,
   claim_C4_fail_fast.2.2.2.2.2.1 "8/8/8/8/8/8/8/8" "w" "-" "-" "x" "0"
     (List.replicate 8 (List.replicate 8 none)) "w" "-" "-" .halfmoveNotDigit
     rfl rfl rfl rfl rfl,
   claim_C4_fail_fast.2.2.2.2.2.2.2.2.1 "8/x7/8/8/8/8/8/8" ["8"] "x7"
     ["8", "8", "8", "8", "8", "8"] (.badPlacementChar 'x' 2) rfl rfl
     (fun j hj => by
       match j with
       | 0 => exact ⟨List.replicate 8 none, rfl⟩
       | j + 1 => simp at hj)
     rfl,
   claim_C4_fail_fast.2.2.2.2.2.2.2.1 "8/8/8/8/8/8/8/8" "b" "-" "-" "0" "1"
     (List.replicate 8 (List.replicate 8 none)) "b" "-" "-" 0 1
     rfl rfl rfl rfl rfl rfl⟩

/-- Claim C5 (counterexample): the inputs "Kq" and "qK" denote the same
set of castling rights, both validate, and the produced records carry
DIFFERENT castling values — nothing is normalized. -/
theorem claim_C5_counterexample :
    (parse_fen "8/8/8/8/8/8/8/8 w Kq - 0 1").toOption.map FenRecord.castling =
      some "Kq" ∧
    (parse_fen "8/8/8/8/8/8/8/8 w qK - 0 1").toOption.map FenRecord.castling =
      some "qK" ∧
    ("Kq" : String) ≠ "qK" :=
  ⟨rfl, rfl, by decide⟩

/-- Claim C5 (amended): the castling validator accepts "-" and any
duplicate-free string over K Q k q in any order, and returns the input
string verbatim — two different orderings of the same rights therefore
yield different stored values. -/
theorem claim_C5_castling_verbatim :
    (∀ (s t : String), parse_castling s = .ok t → t = s) ∧
    (∀ s : String, parse_castling s = .ok s ↔
      (s = "-" ∨ ((∀ c ∈ s.data, c ∈ ['K', 'Q', 'k', 'q']) ∧ s.data.Nodup))) := by
  constructor
  · intro s t h
    unfold parse_castling at h
    split at h
    · simp only [Except.ok.injEq] at h
      exact h.symm
    · split at h
      · simp at h
      · simp only [Except.ok.injEq] at h
        exact h.symm
  · intro s
    unfold parse_castling
    by_cases hd : s = "-"
    · rw [if_pos hd]
      simp [hd]
    · rw [if_neg hd]
      constructor
      · intro h
        cases hca : castlingAux [] s.data with
        | error e => rw [hca] at h; simp at h
        | ok u =>
          cases u
          have := (castlingAux_ok_iff s.data []).mp hca
          exact Or.inr ⟨this.1, this.2.1⟩
      · rintro (h | ⟨h1, h2⟩)
        · exact absurd h hd
        · have hca : castlingAux [] s.data = .ok () := by
            rw [castlingAux_ok_iff]
            exact ⟨h1, h2, by simp⟩
          rw [hca]

/-- Claim C5 (witness): the amended theorem applied at "Kq" and "KQkq". -/
theorem claim_C5_witness :
    ("Kq" : String) = "Kq" ∧ parse_castling "KQkq" = .ok "KQkq" :=
  ⟨claim_C5_castling_verbatim.1 "Kq" "Kq" rfl,
   (claim_C5_castling_verbatim.2 "KQkq").mpr (Or.inr ⟨by decide, by decide⟩)⟩

/-- Claim C6: any character outside the 12 piece letters, the digits 1-8
and the slash that the left-to-right rank scan reaches (all characters
before it being legal) makes the decoder fail with the LEXICAL error
naming that character and the rank number, never a SYNTACTIC error. -/
theorem claim_C6_lexical_scan (i : Nat) (pre post : List Char) (c : Char)
    (hpre : ∀ x ∈ pre, x ∈ ALL_PIECES ∨ x ∈ DIGITS_1_7)
    (hp : c ∉ ALL_PIECES)
    (hd : c ∉ ['1', '2', '3', '4', '5', '6', '7', '8'])
    (hs : c ≠ '/') :
    parseRank i (String.mk (pre ++ c :: post)) = .error (.badPlacementChar c i) ∧
    errKind (.badPlacementChar c i) = .lexical := by
  have hd7 : c ∉ DIGITS_1_7 := by
    intro hc
    apply hd
    simp only [DIGITS_1_7, List.mem_cons, List.not_mem_nil, or_false] at hc
    simp only [List.mem_cons, List.not_mem_nil, or_false]
    tauto
  have h8 : c ≠ '8' := by
    intro hc
    exact hd (by rw [hc]; decide)
  have hne : String.mk (pre ++ c :: post) ≠ "8" := by
    intro hmk
    have hdt : pre ++ c :: post = ['8'] := by
      have := congrArg String.data hmk
      simpa using this
    cases pre with
    | nil =>
      simp only [List.nil_append, List.cons.injEq] at hdt
      exact h8 hdt.1
    | cons y ys =>
      simp only [List.cons_append, List.cons.injEq] at hdt
      exact absurd hdt.2 (by simp)
  refine ⟨?_, rfl⟩
  unfold parseRank
  rw [if_neg hne]
  have hdata : (String.mk (pre ++ c :: post)).data = pre ++ c :: post := rfl
  rw [hdata]
  have hfirst := parseRankAux_first_illegal i c post pre [] hpre hp hd7
  rw [if_neg h8] at hfirst
  rw [hfirst]

/-- Claim C6 (witness): the theorem applied at rank 5 and the invalid
character C followed by a digit. -/
theorem claim_C6_witness :
    parseRank 5 (String.mk ([] ++ 'C' :: ['3'])) = .error (.badPlacementChar 'C' 5) :=
  (claim_C6_lexical_scan 5 [] ['3'] 'C' (by simp) (by decide) (by decide)
    (by decide)).1

/-- Claim C7: the en-passant validator maps "-" to itself; any other
field of length other than 2 fails with the SYNTACTIC length error; a
2-character field with a file outside a..h fails with the LEXICAL file
error; a 2-character field with a valid file and a rank outside 3 and 6
fails with the SYNTACTIC rank error; and the concrete cases of the spec
behave accordingly. -/
theorem claim_C7_en_passant :
    parse_en_passant "-" = .ok "-" ∧
    (∀ s : String, s ≠ "-" → s.data.length ≠ 2 →
      parse_en_passant s = .error .epLen) ∧
    (∀ f r : Char, f ∉ ['a', 'b', 'c', 'd', 'e', 'f', 'g', 'h'] →
      parse_en_passant (String.mk [f, r]) = .error (.epFile f)) ∧
    (∀ f r : Char, f ∈ ['a', 'b', 'c', 'd', 'e', 'f', 'g', 'h'] → r ∉ ['3', '6'] →
      parse_en_passant (String.mk [f, r]) = .error (.epRank r)) ∧
    errKind .epLen = .parse ∧
    (∀ f, errKind (.epFile f) = .lexical) ∧
    (∀ r, errKind (.epRank r) = .parse) ∧
    parse_en_passant "e3" = .ok "e3" ∧ parse_en_passant "e6" = .ok "e6" ∧
    parse_en_passant "e4" = .error (.epRank '4') ∧
    parse_en_passant "i3" = .error (.epFile 'i') ∧
    parse_en_passant "e" = .error .epLen := by
  refine ⟨rfl, ?_, ?_, ?_, rfl, fun f => rfl, fun r => rfl, rfl, rfl, rfl, rfl, rfl⟩
  · intro s hne hlen
    unfold parse_en_passant
    rw [if_neg hne]
    cases hdt : s.data with
    | nil => rfl
    | cons a t =>
      cases t with
      | nil => rfl
      | cons b t2 =>
        cases t2 with
        | nil => exact absurd (by rw [hdt]; rfl) hlen
        | cons x t3 => rfl
  · intro f r hf
    have hne : String.mk [f, r] ≠ "-" := by
      intro hmk
      have := congrArg String.data hmk
      simp at this
    unfold parse_en_passant
    rw [if_neg hne]
    show (if f ∉ ['a', 'b', 'c', 'd', 'e', 'f', 'g', 'h'] then
        Except.error (FenErr.epFile f)
      else if r ∉ ['3', '6'] then Except.error (FenErr.epRank r)
      else Except.ok (String.mk [f, r])) = Except.error (FenErr.epFile f)
    rw [if_pos hf]
  · intro f r hfv hr
    have hne : String.mk [f, r] ≠ "-" := by
      intro hmk
      have := congrArg String.data hmk
      simp at this
    unfold parse_en_passant
    rw [if_neg hne]
    show (if f ∉ ['a', 'b', 'c', 'd', 'e', 'f', 'g', 'h'] then
        Except.error (FenErr.epFile f)
      else if r ∉ ['3', '6'] then Except.error (FenErr.epRank r)
      else Except.ok (String.mk [f, r])) = Except.error (FenErr.epRank r)
    rw [if_neg (not_not_intro hfv), if_pos hr]

/-- Claim C7 (witness): the universal parts applied at the fields "abc",
"i3" and "e4". -/
theorem claim_C7_witness :
    parse_en_passant "abc" = .error .epLen ∧
    parse_en_passant (String.mk ['i', '3']) = .error (.epFile 'i') ∧
    parse_en_passant (String.mk ['e', '4']) = .error (.epRank '4') :=
  ⟨claim_C7_en_passant.2.1 "abc" (by decide) (by decide),
   claim_C7_en_passant.2.2.1 'i' '3' (by decide),
   claim_C7_en_passant.2.2.2.1 'e' '4' (by decide) (by decide)⟩

/-- Claim C8 (code bug): the negative branch of the halfmove validator
is indeed unreachable and every success is non-negative, and every field
failing the digit-only check fails LEXICAL; but a field made of digit
characters that are not decimal digits (superscript two) passes the
digit-only check and then escapes with an unclassified `ValueError`
instead of returning an integer. -/
theorem claim_C8_halfmove :
    (∀ s : String, parse_halfmove_clock s ≠ .error .halfmoveNegative) ∧
    (∀ (s : String) (v : Int), parse_halfmove_clock s = .ok v → 0 ≤ v) ∧
    (∀ s : String, pyIsDigitStr s = false →
      parse_halfmove_clock s = .error .halfmoveNotDigit) ∧
    errKind .halfmoveNotDigit = .lexical ∧
    pyIsDigitStr "²" = true ∧
    parse_halfmove_clock "²" = .error (.valueError "²") ∧
    errKind (.valueError "²") = .unclassified := by
  refine ⟨parse_halfmove_clock_never_negative, ?_, ?_, rfl, rfl, rfl, rfl⟩
  · intro s v h
    unfold parse_halfmove_clock at h
    split at h
    · simp at h
    · cases hv : pyInt s with
      | none => rw [hv] at h; simp at h
      | some val =>
        rw [hv] at h
        have h2 : (if val < 0 then Except.error FenErr.halfmoveNegative
            else Except.ok val) = Except.ok v := h
        split at h2
        · simp at h2
        · simp only [Except.ok.injEq] at h2
          subst h2
          exact pyInt_nonneg hv
  · intro s hnd
    unfold parse_halfmove_clock
    rw [if_pos (by rw [hnd]; rfl)]

/-- Claim C8 (witness): the universal parts applied at "x", "0" and the
non-digit field "-1". -/
theorem claim_C8_witness :
    parse_halfmove_clock "x" ≠ .error .halfmoveNegative ∧
    (0 : Int) ≤ 0 ∧
    parse_halfmove_clock "-1" = .error .halfmoveNotDigit :=
  ⟨claim_C8_halfmove.1 "x",
   claim_C8_halfmove.2.1 "0" 0 rfl,
   claim_C8_halfmove.2.2.1 "-1" rfl⟩

/-- Claim C9: whenever whitespace splitting yields other than 6 tokens,
`parse_fen` stops with the SYNTACTIC field-count error carrying the
actual token count, and no field validator output can appear. -/
theorem claim_C9_field_count (fen : String)
    (h : (pySplit fen).length ≠ 6) :
    parse_fen fen = .error (.fieldCount (pySplit fen).length) ∧
    errKind (.fieldCount (pySplit fen).length) = .parse :=
  ⟨parseFields_not6 (pySplit fen) h, rfl⟩

/-- Claim C9 (witness): the theorem applied at a 2-token input. -/
theorem claim_C9_witness :
    parse_fen "a b" = .error (.fieldCount 2) :=
  (claim_C9_field_count "a b" (by decide)).1

/-- Claim C10 (counterexample): a placement field with exactly 8
segments and an empty segment whose decoding nevertheless fails with a
LEXICAL error about an earlier row, not with the SYNTACTIC zero-columns
error of the first empty row. -/
theorem claim_C10_counterexample :
    ((splitListOn '/' ("x//8/8/8/8/8/8" : String).data).map
      (fun l => String.mk l)).length = 8 ∧
    "" ∈ (splitListOn '/' ("x//8/8/8/8/8/8" : String).data).map
      (fun l => String.mk l) ∧
    parse_piece_placement "x//8/8/8/8/8/8" = .error (.badPlacementChar 'x' 1) ∧
    errKind (.badPlacementChar 'x' 1) ≠ .parse :=
  ⟨rfl, by decide, rfl, by decide⟩

/-- Claim C10 (amended): an empty rank segment always fails with the
SYNTACTIC zero-columns error for its row, never a LEXICAL error; and in
a placement field of exactly 8 segments whose rows before the first
empty segment all decode successfully, the decoder reports precisely
that the first empty row has 0 columns. -/
theorem claim_C10_empty_segment :
    (∀ i, parseRank i "" = .error (.rowLen i 0) ∧ errKind (.rowLen i 0) = .parse) ∧
    (∀ (s : String) (pre post : List String),
      (splitListOn '/' s.data).map (fun l => String.mk l) = pre ++ "" :: post →
      pre.length + (post.length + 1) = 8 →
      (∀ j, j < pre.length → ∃ row, parseRank (1 + j) (pre.getD j "") = .ok row) →
      parse_piece_placement s = .error (.rowLen (1 + pre.length) 0)) := by
  refine ⟨fun i => ⟨parseRank_empty i, rfl⟩, ?_⟩
  intro s pre post hsplit hlen hok
  simp only [parse_piece_placement]
  rw [hsplit]
  have h8 : (pre ++ "" :: post).length = 8 := by
    simp only [List.length_append, List.length_cons]
    omega
  rw [if_neg (not_ne_iff.mpr h8)]
  exact parsePlacementRanks_error_after_ok pre 1 "" post _ hok
    (parseRank_empty (1 + pre.length))

/-- Claim C10 (witness): the amended theorem applied to a placement
whose third segment is the first empty one. -/
theorem claim_C10_witness :
    parse_piece_placement "8/8//8/8/8/8/8" = .error (.rowLen 3 0) :=
  claim_C10_empty_segment.2 "8/8//8/8/8/8/8" ["8", "8"] ["8", "8", "8", "8", "8"]
    rfl rfl
    (fun j hj => by
      match j with
      | 0 => exact ⟨List.replicate 8 none, rfl⟩
      | 1 => exact ⟨List.replicate 8 none, rfl⟩
      | j + 2 => simp at hj)
